import Mathlib

/-!
Verification development for `src/api/java/genkinds.py`, the generator that
turns the ordered list of CVC4 kind names into a Java `Kind` enumeration with
explicit integer codes and a bounds-checked `fromInt` lookup.

The Python source is embedded shallowly:

* `KINDS_JAVA_TOP` / `KINDS_JAVA_BOTTOM` are the literal code blocks of the
  script (braces written with escapes).
* `genCode` is the accumulation loop of `gen_java` (`code += ...` with the
  `enum_value` counter starting at `-2`); `renderJava` is the final value of
  the local variable `code`.
* `gen_java` is the whole Python function: it opens the output file, writes
  the rendered text and closes the file.  Its I/O is made explicit as a trace
  of `FileOp`s.
* `assignCodes` / `genMembers` give the (member name, code) pairs that the
  loop binds, in input order.
* `fromInt`, `kindMapGet`, `getValue` embed the Java semantics of the
  generated text in `KINDS_JAVA_BOTTOM`: the static block fills `kindMap` by
  iterating the members in declaration order (a later `put` overwrites an
  earlier one), and `fromInt` checks `value` against
  `INTERNAL_KIND.value` / `LAST_KIND.value`.  In the kinds header consumed by
  this generator, `INTERNAL_KIND` is the first declared kind and `LAST_KIND`
  the last, so those references resolve to the first and the last member of
  the generated enumeration; for an empty enumeration they do not resolve at
  all, which the embedding records as `FromIntResult.unresolvedBound`.
-/

/-- The literal `KINDS_JAVA_TOP` block of the script. -/
def KINDS_JAVA_TOP : String :=
  "package cvc;\n\nimport java.util.HashMap;\nimport java.util.Map;\n\npublic enum Kind \n\x7b\n"

/-- The literal `KINDS_JAVA_BOTTOM` block of the script. -/
def KINDS_JAVA_BOTTOM : String :=
  ";\n\n  /* the int value of the kind */\n  private int value;\n  private static Map<Integer, Kind> kindMap = new HashMap<>();\n  private Kind(int value)\n  \x7b\n    this.value = value;\n  \x7d\n\n  static\n  \x7b\n    for (Kind kind : Kind.values())\n    \x7b\n      kindMap.put(kind.getValue(), kind);\n    \x7d\n  \x7d\n\n  public static Kind fromInt(int value) throws CVCApiException\n  \x7b\n    if (value < INTERNAL_KIND.value || value > LAST_KIND.value)\n    \x7b\n      throw new CVCApiException(\"Kind value \" + value + \" is outside the valid range [\"\n          + INTERNAL_KIND.value + \",\" + LAST_KIND.value + \"]\");\n    \x7d\n    return kindMap.get(value);\n  \x7d\n\n  public int getValue()\n  \x7b\n    return value;\n  \x7d\n\x7d\n"

/-- One member-declaration line of the loop body in `gen_java`:
`"  \x7bname\x7d(\x7benum_value\x7d),\n".format(name=kind, enum_value=enum_value)`.
Note that the `name` placeholder is filled with `kind`, the key of the
ordered mapping. -/
def memberLine (kind : String) (enum_value : Int) : String :=
  "  " ++ kind ++ "(" ++ toString enum_value ++ "),\n"

/-- The loop of `gen_java`: iterate the entries `(kind, name)` of
`parser.kinds` in order, append `memberLine kind enum_value` to the
accumulated `code` string and increment `enum_value`. -/
def genCode : List (String × String) → Int → String → String
  | [], _, code => code
  | (kind, _) :: rest, enum_value, code =>
      genCode rest (enum_value + 1) (code ++ memberLine kind enum_value)

/-- The final value of the local variable `code` in `gen_java`:
`KINDS_JAVA_TOP`, then the loop starting with `enum_value = -2`, then
`KINDS_JAVA_BOTTOM`. -/
def renderJava (kinds : List (String × String)) : String :=
  genCode kinds (-2) KINDS_JAVA_TOP ++ KINDS_JAVA_BOTTOM

/-- A file-system operation performed by the script, used to make the I/O of
`gen_java` explicit. -/
inductive FileOp where
  | openW : String → FileOp
  | write : String → String → FileOp
  | close : String → FileOp
  deriving DecidableEq, Repr

/-- The whole Python function `gen_java(parser, filename)`:
`f = open(filename, "w")`, build `code`, `f.write(code)`, `f.close()`.
The returned list is the trace of file operations it performs. -/
def gen_java (kinds : List (String × String)) (filename : String) : List FileOp :=
  [FileOp.openW filename, FileOp.write filename (renderJava kinds), FileOp.close filename]

/-- The contents written by a trace of file operations, in order. -/
def writtenContents (ops : List FileOp) : List String :=
  ops.filterMap fun op =>
    match op with
    | FileOp.write _ c => some c
    | _ => none

/-- The code-assignment of the loop in `gen_java`: the k-th name receives the
counter value `start + k`. -/
def assignCodes : List String → Int → List (String × Int)
  | [], _ => []
  | k :: rest, start => (k, start) :: assignCodes rest (start + 1)

/-- The (member name, code) pairs bound by `gen_java` for an input ordered
mapping: the keys of the mapping, with the `enum_value` counter starting at
`-2`. -/
def genMembers (kinds : List (String × String)) : List (String × Int) :=
  assignCodes (kinds.map Prod.fst) (-2)

/-- The generated accessor `getValue()` (the spec's `getCode`): the integer
code bound to a member. -/
def getValue (k : String × Int) : Int := k.2

/-- The generated `kindMap.get(value)`.  The static block inserts the members
in declaration order, so a later `put` with the same key overwrites an
earlier one: `get` returns the last member carrying the requested code. -/
def kindMapGet (table : List (String × Int)) (v : Int) : Option (String × Int) :=
  table.reverse.find? fun k => k.2 == v

/-- Outcome of a call to the generated `fromInt`. -/
inductive FromIntResult where
  /-- the lookup returned a member -/
  | ok : String × Int → FromIntResult
  /-- `kindMap.get` returned `null` for an in-range value -/
  | nullKind : FromIntResult
  /-- `CVCApiException` thrown: offending value, inclusive low, inclusive high -/
  | outOfRange : Int → Int → Int → FromIntResult
  /-- the references `INTERNAL_KIND` / `LAST_KIND` in the range check do not
  resolve (empty enumeration) -/
  | unresolvedBound : FromIntResult
  deriving DecidableEq, Repr

/-- The values of `INTERNAL_KIND` and `LAST_KIND` used by the range check of
the generated `fromInt`: the codes of the first and the last declared member
(see the module docstring).  `none` when the enumeration has no members. -/
def enumBounds (table : List (String × Int)) : Option (Int × Int) :=
  match table.head?, table.getLast? with
  | some f, some l => some (f.2, l.2)
  | _, _ => none

/-- The generated `fromInt(value)`: if `value < INTERNAL_KIND.value || value
> LAST_KIND.value` throw `CVCApiException`, else `return kindMap.get(value)`. -/
def fromInt (table : List (String × Int)) (value : Int) : FromIntResult :=
  match enumBounds table with
  | none => FromIntResult.unresolvedBound
  | some (low, high) =>
      if value < low ∨ value > high then
        FromIntResult.outOfRange value low high
      else
        match kindMapGet table value with
        | some k => FromIntResult.ok k
        | none => FromIntResult.nullKind

/-- The message of the `CVCApiException` thrown by the generated `fromInt`:
`"Kind value " + value + " is outside the valid range [" + low + "," + high + "]"`. -/
def cvcApiExceptionMessage (value low high : Int) : String :=
  "Kind value " ++ toString value ++ " is outside the valid range [" ++
    toString low ++ "," ++ toString high ++ "]"

/-- The error message carried by a `fromInt` outcome, when there is one. -/
def fromIntMessage : FromIntResult → Option String
  | FromIntResult.outOfRange v low high => some (cvcApiExceptionMessage v low high)
  | _ => none

/-- The code of the member returned by a successful `fromInt` outcome. -/
def okValue : FromIntResult → Option Int
  | FromIntResult.ok k => some (getValue k)
  | _ => none

/-- Whether a `fromInt` outcome is a successful lookup. -/
def isOk : FromIntResult → Bool
  | FromIntResult.ok _ => true
  | _ => false

/-- Whether a `fromInt` outcome is the out-of-range failure. -/
def isOutOfRangeErr : FromIntResult → Bool
  | FromIntResult.outOfRange _ _ _ => true
  | _ => false

/-- A generation-time error. -/
inductive GenError where
  /-- the Kind Source yielded a duplicate (or otherwise malformed) name -/
  | MalformedInputKind : String → GenError
  deriving DecidableEq, Repr

/-- Modelled from the spec: the Kind Source's table construction (it lives in
`parsekinds.py`, which is not part of this excerpt).  Per the spec's error
taxonomy, a duplicate name is detected at table-construction time and
reported as `MalformedInputKind`; otherwise the ordered entries are returned
unchanged. -/
def buildKindSource : List (String × String) → Except GenError (List (String × String))
  | [] => Except.ok []
  | (k, nm) :: rest =>
      if (rest.map Prod.fst).contains k then
        Except.error (GenError.MalformedInputKind k)
      else
        (buildKindSource rest).map fun t => (k, nm) :: t

/-- Whether a generation outcome is the `MalformedInputKind` failure. -/
def isMalformedErr {α : Type} : Except GenError α → Bool
  | Except.error (GenError.MalformedInputKind _) => true
  | _ => false

/-- The `__main__` flow of the script around `gen_java`: the kinds header is
parsed first (`kp.parse`), and only on success is `gen_java` called.  The
result pairs the trace of file operations with the generation outcome. -/
def runGeneration (parsed : Except GenError (List (String × String)))
    (filename : String) : List FileOp × Except GenError Unit :=
  match parsed with
  | Except.error e => ([], Except.error e)
  | Except.ok kinds => (gen_java kinds filename, Except.ok ())

/-- The full pipeline on a raw ordered mapping: build the kind table (spec-
modelled Kind Source), then run the generator. -/
def generateRun (kinds : List (String × String)) (filename : String) :
    List FileOp × Except GenError Unit :=
  runGeneration (buildKindSource kinds) filename

/-- The block of member-declaration lines, one `memberLine` per record in
order. -/
def memberBlock : List (String × Int) → String
  | [] => ""
  | p :: rest => memberLine p.1 p.2 ++ memberBlock rest

theorem assignCodes_map_fst (names : List String) (s : Int) :
    (assignCodes names s).map Prod.fst = names := by
  induction names generalizing s with
  | nil => rfl
  | cons x rest ih => simp [assignCodes, ih]

theorem assignCodes_length (names : List String) (s : Int) :
    (assignCodes names s).length = names.length := by
  induction names generalizing s with
  | nil => rfl
  | cons x rest ih => simp [assignCodes, ih]

theorem assignCodes_getElem? (names : List String) (s : Int) (k : Nat) :
    (assignCodes names s)[k]? = names[k]?.map fun nm => (nm, s + k) := by
  induction names generalizing s k with
  | nil => simp [assignCodes]
  | cons x rest ih =>
      cases k with
      | zero => simp [assignCodes]
      | succ k =>
          simp only [assignCodes, List.getElem?_cons_succ, ih]
          have hc : ∀ nm : String, (nm, s + 1 + (k : Int)) = (nm, s + ((k : Nat) + 1 : Nat)) := by
            intro nm
            have : s + 1 + (k : Int) = s + ((k : Nat) + 1 : Nat) := by push_cast; ring
            rw [this]
          simp only [hc]

theorem assignCodes_head? (x : String) (rest : List String) (s : Int) :
    (assignCodes (x :: rest) s).head? = some (x, s) := rfl

theorem assignCodes_getLast? (names : List String) (s : Int) (h : names ≠ []) :
    ∃ nm, (assignCodes names s).getLast? = some (nm, s + names.length - 1) := by
  induction names generalizing s with
  | nil => simp at h
  | cons x rest ih =>
      cases rest with
      | nil =>
          refine ⟨x, ?_⟩
          simp [assignCodes]
      | cons y t =>
          obtain ⟨nm, hnm⟩ := ih (s + 1) (by simp)
          refine ⟨nm, ?_⟩
          have hcons : assignCodes (x :: y :: t) s = (x, s) :: assignCodes (y :: t) (s + 1) := rfl
          have hcons2 : assignCodes (y :: t) (s + 1) = (y, s + 1) :: assignCodes t (s + 1 + 1) := rfl
          rw [hcons, hcons2, List.getLast?_cons_cons, ← hcons2, hnm]
          simp only [Option.some.injEq, Prod.mk.injEq, true_and, List.length_cons]
          push_cast
          ring

theorem assignCodes_mem_code (names : List String) (s : Int) (p : String × Int)
    (hp : p ∈ assignCodes names s) : s ≤ p.2 ∧ p.2 ≤ s + names.length - 1 := by
  induction names generalizing s with
  | nil => simp [assignCodes] at hp
  | cons x rest ih =>
      simp only [assignCodes, List.mem_cons] at hp
      rcases hp with h | h
      · subst h
        simp only [List.length_cons]
        push_cast
        omega
      · have := ih (s + 1) h
        simp only [List.length_cons]
        push_cast
        omega

theorem assignCodes_exists_code (names : List String) (s : Int) (v : Int)
    (h1 : s ≤ v) (h2 : v ≤ s + names.length - 1) :
    ∃ p ∈ assignCodes names s, p.2 = v := by
  induction names generalizing s with
  | nil =>
      simp only [List.length_nil] at h2
      omega
  | cons x rest ih =>
      by_cases hv : v = s
      · exact ⟨(x, s), by simp [assignCodes], hv.symm⟩
      · have h2x : v ≤ s + 1 + (rest.length : Int) - 1 := by
          simp only [List.length_cons] at h2
          push_cast at h2
          omega
        obtain ⟨p, hp, hpv⟩ := ih (s + 1) (by omega) h2x
        exact ⟨p, by simp [assignCodes, hp], hpv⟩

theorem assignCodes_code_inj (names : List String) (s : Int) (p q : String × Int)
    (hp : p ∈ assignCodes names s) (hq : q ∈ assignCodes names s) (h : p.2 = q.2) :
    p = q := by
  induction names generalizing s with
  | nil => simp [assignCodes] at hp
  | cons x rest ih =>
      simp only [assignCodes, List.mem_cons] at hp hq
      rcases hp with hp | hp <;> rcases hq with hq | hq
      · rw [hp, hq]
      · exfalso
        have hb := (assignCodes_mem_code rest (s + 1) q hq).1
        subst hp
        simp only at h
        omega
      · exfalso
        have hb := (assignCodes_mem_code rest (s + 1) p hp).1
        subst hq
        simp only at h
        omega
      · exact ih (s + 1) hp hq

theorem kindMapGet_mem (table : List (String × Int)) (v : Int) (p : String × Int)
    (h : kindMapGet table v = some p) : p ∈ table ∧ p.2 = v := by
  unfold kindMapGet at h
  have h1 := List.find?_some h
  have h2 := List.mem_of_find?_eq_some h
  rw [List.mem_reverse] at h2
  simp only [beq_iff_eq] at h1
  exact ⟨h2, h1⟩

theorem kindMapGet_isSome (table : List (String × Int)) (v : Int) (p : String × Int)
    (hp : p ∈ table) (hpv : p.2 = v) : ∃ q, kindMapGet table v = some q := by
  unfold kindMapGet
  cases hfind : table.reverse.find? (fun k => k.2 == v) with
  | some q => exact ⟨q, rfl⟩
  | none =>
      rw [List.find?_eq_none] at hfind
      have := hfind p (List.mem_reverse.mpr hp)
      simp [hpv] at this

theorem kindMapGet_assignCodes_self (names : List String) (s : Int) (m : String × Int)
    (hm : m ∈ assignCodes names s) :
    kindMapGet (assignCodes names s) m.2 = some m := by
  obtain ⟨q, hq⟩ := kindMapGet_isSome (assignCodes names s) m.2 m hm rfl
  obtain ⟨hqmem, hqv⟩ := kindMapGet_mem (assignCodes names s) m.2 q hq
  rw [hq, assignCodes_code_inj names s q m hqmem hm (by rw [hqv])]

theorem enumBounds_assignCodes (names : List String) (s : Int) (h : names ≠ []) :
    enumBounds (assignCodes names s) = some (s, s + names.length - 1) := by
  cases names with
  | nil => simp at h
  | cons x rest =>
      obtain ⟨nm, hlast⟩ := assignCodes_getLast? (x :: rest) s (by simp)
      unfold enumBounds
      rw [assignCodes_head? x rest s, hlast]

theorem genCode_append (kinds : List (String × String)) (ev : Int) (acc : String) :
    genCode kinds ev acc = acc ++ memberBlock (assignCodes (kinds.map Prod.fst) ev) := by
  induction kinds generalizing ev acc with
  | nil => simp [genCode, memberBlock, assignCodes]
  | cons p rest ih =>
      obtain ⟨kind, nm⟩ := p
      rw [genCode, ih]
      simp [assignCodes, memberBlock, String.append_assoc]

/-- Claim C1: for every ordered input mapping, the generated enumeration
declares its members in input order and binds the k-th member (0-indexed) to
the code `-2 + k` (the default starting offset is `-2`); in particular the
input `AND, OR, NOT` yields the codes `AND=-2, OR=-1, NOT=0`. -/
theorem genMembers_kth_code (kinds : List (String × String)) (k : Nat) :
    (genMembers kinds)[k]? = kinds[k]?.map (fun e => (e.1, -2 + (k : Int))) ∧
    genMembers [("AND", "AND"), ("OR", "OR"), ("NOT", "NOT")] =
      [("AND", -2), ("OR", -1), ("NOT", 0)] := by
  constructor
  · unfold genMembers
    rw [assignCodes_getElem? (kinds.map Prod.fst) (-2) k, List.getElem?_map]
    cases kinds[k]? <;> rfl
  · decide

/-- Claim C10: the generated text is exactly the fixed header block, one
`memberLine` per entry in input order (two spaces, the member name, the code
in parentheses, a comma and a newline, the comma also after the last line),
and the fixed footer block; nothing else. -/
theorem rendered_text_shape (kinds : List (String × String)) :
    renderJava kinds =
      KINDS_JAVA_TOP ++ memberBlock (genMembers kinds) ++ KINDS_JAVA_BOTTOM := by
  unfold renderJava genMembers
  rw [genCode_append]

/-- Claim C4 counterexample: for the mapping entry `("AND", "and")` the
emitter declares the member as `AND`, the symbolic identifier (the mapping
key), not as the display name `and` (the mapping value), so the claim that
the display name is used verbatim as the declared member name is false. -/
theorem declared_name_uses_key_not_display :
    (genMembers [("AND", "and")]).map Prod.fst ≠ [("AND", "and")].map Prod.snd ∧
    renderJava [("AND", "and")] =
      KINDS_JAVA_TOP ++ "  AND(-2),\n" ++ KINDS_JAVA_BOTTOM := by
  constructor
  · decide
  · rfl

/-- Claim C4 (amended): the declared name of each enumeration member is the
mapping entry's symbolic identifier (the key of the ordered mapping), used
verbatim and in order; the display name (the value) is ignored. -/
theorem declared_names_are_keys (kinds : List (String × String)) :
    (genMembers kinds).map Prod.fst = kinds.map Prod.fst := by
  unfold genMembers
  rw [assignCodes_map_fst]

/-- Claim C9: generation is deterministic — the written text is a function of
the ordered input mapping only (in particular it does not depend on the
output filename), and every run writes exactly the rendered text. -/
theorem generation_deterministic (kinds : List (String × String)) (fn1 fn2 : String) :
    writtenContents (gen_java kinds fn1) = writtenContents (gen_java kinds fn2) ∧
    writtenContents (gen_java kinds fn1) = [renderJava kinds] :=
  ⟨rfl, rfl⟩

/-- Claim C6 counterexample: the emitter `gen_java` does perform I/O itself —
on the concrete input below its effect trace opens the output file, writes
the rendered text and closes the file; in particular the trace is not empty,
so the claim that the core rendering operation performs no I/O and leaves the
writing to a separate external step is false. -/
theorem emitter_opens_and_writes :
    gen_java [("AND", "AND")] "Kind.java" =
      [FileOp.openW "Kind.java",
       FileOp.write "Kind.java" (renderJava [("AND", "AND")]),
       FileOp.close "Kind.java"] ∧
    gen_java [("AND", "AND")] "Kind.java" ≠ [] := by
  constructor
  · rfl
  · decide

/-- Claim C6 (amended): the rendering of the enumeration text is a pure
computation of the input mapping, but `gen_java` itself opens the output
file, writes the rendered text and closes the file — its only I/O is this
single complete write, performed inside `gen_java` rather than by a separate
external step. -/
theorem emitter_io_is_single_write (kinds : List (String × String)) (filename : String) :
    gen_java kinds filename =
      [FileOp.openW filename, FileOp.write filename (renderJava kinds),
       FileOp.close filename] :=
  rfl

/-- Claim C7 counterexample: for the empty input the generated `fromInt`
performs the undefined bound check (the references to the first and last
members do not resolve), so no `CVCApiException` carrying an error message —
let alone one reporting an empty range — is produced; the claim that every
lookup fails with an explicit empty-range error message is false. -/
theorem empty_input_no_error_message :
    fromInt (genMembers ([] : List (String × String))) 0 = FromIntResult.unresolvedBound ∧
    fromIntMessage (fromInt (genMembers ([] : List (String × String))) 0) = none ∧
    isOutOfRangeErr (fromInt (genMembers ([] : List (String × String))) 0) = false := by
  refine ⟨rfl, rfl, rfl⟩

/-- Claim C7 (amended): for the empty input, generation succeeds and writes
an enumeration with zero members (header directly followed by footer), but
the generated `fromInt` never reaches an `OutOfRangeKind` report: its bound
check references the first and last members, which do not exist, so every
lookup ends in the unresolved bound check instead of an explicit empty-range
error message. -/
theorem empty_input_generation (fn : String) (v : Int) :
    renderJava [] = KINDS_JAVA_TOP ++ KINDS_JAVA_BOTTOM ∧
    genMembers ([] : List (String × String)) = [] ∧
    gen_java [] fn =
      [FileOp.openW fn, FileOp.write fn (KINDS_JAVA_TOP ++ KINDS_JAVA_BOTTOM),
       FileOp.close fn] ∧
    fromInt (genMembers ([] : List (String × String))) v = FromIntResult.unresolvedBound := by
  refine ⟨rfl, rfl, rfl, rfl⟩

theorem fromInt_in_range (names : List String) (start v : Int)
    (h1 : start ≤ v) (h2 : v ≤ start + names.length - 1) :
    ∃ q, fromInt (assignCodes names start) v = FromIntResult.ok q ∧ q.2 = v := by
  have hne : names ≠ [] := by
    intro hnil
    subst hnil
    simp only [List.length_nil] at h2
    omega
  have hb := enumBounds_assignCodes names start hne
  obtain ⟨p, hp, hpv⟩ := assignCodes_exists_code names start v h1 h2
  obtain ⟨q, hq⟩ := kindMapGet_isSome (assignCodes names start) v p hp hpv
  obtain ⟨hqmem, hqv⟩ := kindMapGet_mem (assignCodes names start) v q hq
  refine ⟨q, ?_, hqv⟩
  simp only [fromInt, hb]
  rw [if_neg (by omega), hq]

/-- Claim C2: for a generated enumeration with at least one member and codes
`start .. start + n - 1`, the generated `fromInt` applied to any value
outside that inclusive range fails with the out-of-range error whose message
reports the offending value and both inclusive bounds (never clamping or
defaulting); `fromInt (start - 1)` and `fromInt (start + n)` fail, while
`fromInt start` and `fromInt (start + n - 1)` succeed. -/
theorem fromInt_range_check (names : List String) (start : Int) (h : names ≠ []) :
    (∀ v : Int, v < start ∨ v > start + names.length - 1 →
        fromInt (assignCodes names start) v =
          FromIntResult.outOfRange v start (start + names.length - 1) ∧
        fromIntMessage (fromInt (assignCodes names start) v) =
          some (cvcApiExceptionMessage v start (start + names.length - 1))) ∧
    isOutOfRangeErr (fromInt (assignCodes names start) (start - 1)) = true ∧
    isOutOfRangeErr (fromInt (assignCodes names start) (start + names.length)) = true ∧
    isOk (fromInt (assignCodes names start) start) = true ∧
    isOk (fromInt (assignCodes names start) (start + names.length - 1)) = true := by
  have hb := enumBounds_assignCodes names start h
  have hlen : 1 ≤ (names.length : Int) := by
    cases names with
    | nil => simp at h
    | cons x rest =>
        simp only [List.length_cons]
        push_cast
        omega
  have hout : ∀ v : Int, v < start ∨ v > start + names.length - 1 →
      fromInt (assignCodes names start) v =
        FromIntResult.outOfRange v start (start + names.length - 1) := by
    intro v hv
    simp only [fromInt, hb]
    rw [if_pos hv]
  refine ⟨fun v hv => ⟨hout v hv, ?_⟩, ?_, ?_, ?_, ?_⟩
  · rw [hout v hv]
    rfl
  · rw [hout (start - 1) (by omega)]
    rfl
  · rw [hout (start + names.length) (by omega)]
    rfl
  · obtain ⟨q, hq, _⟩ := fromInt_in_range names start start (by omega) (by omega)
    rw [hq]
    rfl
  · obtain ⟨q, hq, _⟩ :=
      fromInt_in_range names start (start + names.length - 1) (by omega) (by omega)
    rw [hq]
    rfl

/-- Witness for claim C2 at the concrete scenario `AND, OR, NOT` with
`start = -2`: the names list is nonempty, `fromInt 1` fails reporting value
`1` and bounds `[-2, 0]`, and `fromInt (-2)` succeeds. -/
theorem fromInt_range_check_witness :
    (["AND", "OR", "NOT"] : List String) ≠ [] ∧
    ((1 : Int) < -2 ∨ (1 : Int) > -2 + (["AND", "OR", "NOT"] : List String).length - 1) ∧
    fromInt (assignCodes ["AND", "OR", "NOT"] (-2)) 1 =
      FromIntResult.outOfRange 1 (-2)
        (-2 + (["AND", "OR", "NOT"] : List String).length - 1) ∧
    isOk (fromInt (assignCodes ["AND", "OR", "NOT"] (-2)) (-2)) = true :=
  ⟨by decide, by decide,
   ((fromInt_range_check ["AND", "OR", "NOT"] (-2) (by decide)).1 1 (by decide)).1,
   (fromInt_range_check ["AND", "OR", "NOT"] (-2) (by decide)).2.2.2.1⟩

/-- Claim C3: on the generated table the lookup and the accessor are mutually
inverse — for every value `v` in the valid range, the member returned by
`fromInt` carries code `v` (`getCode (fromCode v) = v`), and for every member
`m`, `fromInt (getValue m)` returns `m` itself. -/
theorem fromInt_getValue_bijection (names : List String) (start : Int) :
    (∀ v : Int, start ≤ v → v ≤ start + names.length - 1 →
        okValue (fromInt (assignCodes names start) v) = some v) ∧
    (∀ m, m ∈ assignCodes names start →
        fromInt (assignCodes names start) (getValue m) = FromIntResult.ok m) := by
  constructor
  · intro v h1 h2
    obtain ⟨q, hq, hqv⟩ := fromInt_in_range names start v h1 h2
    rw [hq]
    simp [okValue, getValue, hqv]
  · intro m hm
    have hbounds := assignCodes_mem_code names start m hm
    have hne : names ≠ [] := by
      intro hnil
      subst hnil
      simp [assignCodes] at hm
    have hb := enumBounds_assignCodes names start hne
    simp only [fromInt, hb, getValue]
    rw [if_neg (by omega), kindMapGet_assignCodes_self names start m hm]

/-- Witness for claim C3 at the concrete scenario `AND, OR, NOT` with
`start = -2`: `getCode (fromCode (-1)) = -1` and `fromCode (getCode OR) = OR`. -/
theorem fromInt_getValue_bijection_witness :
    ((-2 : Int) ≤ -1 ∧ (-1 : Int) ≤ -2 + (["AND", "OR", "NOT"] : List String).length - 1) ∧
    okValue (fromInt (assignCodes ["AND", "OR", "NOT"] (-2)) (-1)) = some (-1) ∧
    fromInt (assignCodes ["AND", "OR", "NOT"] (-2)) (getValue ("OR", -1)) =
      FromIntResult.ok ("OR", -1) :=
  ⟨⟨by decide, by decide⟩,
   (fromInt_getValue_bijection ["AND", "OR", "NOT"] (-2)).1 (-1) (by decide) (by decide),
   (fromInt_getValue_bijection ["AND", "OR", "NOT"] (-2)).2 ("OR", -1) (by decide)⟩

theorem isMalformedErr_map {α β : Type} (f : α → β) (e : Except GenError α)
    (h : isMalformedErr e = true) : isMalformedErr (e.map f) = true := by
  cases e with
  | error err =>
      cases err
      simp [isMalformedErr, Except.map]
  | ok a => simp [isMalformedErr] at h

theorem buildKindSource_dup (kinds : List (String × String))
    (h : ¬ (kinds.map Prod.fst).Nodup) :
    isMalformedErr (buildKindSource kinds) = true := by
  induction kinds with
  | nil => simp at h
  | cons p rest ih =>
      obtain ⟨k, nm⟩ := p
      simp only [List.map_cons, List.nodup_cons] at h
      push_neg at h
      by_cases hmem : (rest.map Prod.fst).contains k
      · have hred : buildKindSource ((k, nm) :: rest) =
            Except.error (GenError.MalformedInputKind k) := by
          simp only [buildKindSource]
          rw [if_pos hmem]
        rw [hred]
        rfl
      · have hk : k ∉ rest.map Prod.fst := by
          intro hx
          exact hmem (by simpa using hx)
        have hrest : ¬ (rest.map Prod.fst).Nodup := fun hnd => absurd (h hk) (by simp [hnd])
        simp only [buildKindSource, if_neg hmem]
        exact isMalformedErr_map _ _ (ih hrest)

/-- Claim C5: an input mapping with a duplicate kind name makes generation
fail with `MalformedInputKind`, and nothing is emitted — the run's file trace
is empty, so no enumeration with two members sharing a name (or with a
dropped name) is ever written.  The duplicate check itself is the spec-
modelled Kind Source table construction `buildKindSource`. -/
theorem duplicate_names_abort (kinds : List (String × String)) (filename : String)
    (h : ¬ (kinds.map Prod.fst).Nodup) :
    isMalformedErr (buildKindSource kinds) = true ∧
    (generateRun kinds filename).1 = [] := by
  have hm := buildKindSource_dup kinds h
  refine ⟨hm, ?_⟩
  cases hbs : buildKindSource kinds with
  | error e => simp [generateRun, runGeneration, hbs]
  | ok t =>
      rw [hbs] at hm
      simp [isMalformedErr] at hm

/-- Witness for claim C5 at the duplicate input `AND, AND`. -/
theorem duplicate_names_abort_witness :
    ¬ (([("AND", "AND"), ("AND", "AND")] : List (String × String)).map Prod.fst).Nodup ∧
    (isMalformedErr (buildKindSource [("AND", "AND"), ("AND", "AND")]) = true ∧
     (generateRun [("AND", "AND"), ("AND", "AND")] "Kind.java").1 = []) :=
  ⟨by decide, duplicate_names_abort [("AND", "AND"), ("AND", "AND")] "Kind.java" (by decide)⟩

/-- Claim C8: a generation-time failure aborts the run before any file
operation — the output target is not opened, written or modified at all —
while a successful run performs exactly the single complete write of the
rendered text (the rendering is a total function, so no partial or truncated
text can be written). -/
theorem generation_failure_atomic (parsed : Except GenError (List (String × String)))
    (filename : String) :
    (∀ e, (runGeneration parsed filename).2 = Except.error e →
        (runGeneration parsed filename).1 = []) ∧
    (∀ kinds, parsed = Except.ok kinds →
        (runGeneration parsed filename).1 =
          [FileOp.openW filename, FileOp.write filename (renderJava kinds),
           FileOp.close filename]) := by
  cases parsed with
  | error e =>
      refine ⟨fun _ _ => rfl, fun kinds hk => ?_⟩
      simp at hk
  | ok kinds =>
      refine ⟨fun e he => ?_, fun kinds2 hk => ?_⟩
      · simp [runGeneration] at he
      · injection hk with h2
        subst h2
        rfl

/-- Witness for claim C8 at a failing parse outcome: the run reports the
error and its file trace is empty. -/
theorem generation_failure_atomic_witness :
    (runGeneration (Except.error (GenError.MalformedInputKind "AND")) "Kind.java").2 =
      Except.error (GenError.MalformedInputKind "AND") ∧
    (runGeneration (Except.error (GenError.MalformedInputKind "AND")) "Kind.java").1 = [] :=
  ⟨rfl,
   (generation_failure_atomic (Except.error (GenError.MalformedInputKind "AND"))
      "Kind.java").1 (GenError.MalformedInputKind "AND") rfl⟩
